import Mathlib

/-!
Verification of the apidhcs-sdk cryptographic client (`src/crypto/types.ts`,
class `ECCClient`).  JavaScript strings and Node `Buffer`s are modelled as
lists of characters; the Node `crypto` primitives the client calls are
modelled as an abstract structure (`CryptoModel`) carrying both the
operations and the algebraic contracts the library guarantees, together
with one concrete executable instance used for witnesses.
-/

namespace ECC

/-- JS strings and Node buffers, modelled as character lists. -/
abbrev Str := List Char

/-! ## Decimal digits: `Number.prototype.toString` and `parseInt` models -/

/-- The character for a single decimal digit. -/
def digitChr : Nat → Char
  | 0 => '0'
  | 1 => '1'
  | 2 => '2'
  | 3 => '3'
  | 4 => '4'
  | 5 => '5'
  | 6 => '6'
  | 7 => '7'
  | 8 => '8'
  | 9 => '9'
  | _ => '*'

/-- Recognizer for decimal digit characters. -/
def isDigitCh (c : Char) : Bool := 48 ≤ c.toNat && c.toNat ≤ 57

/-- Numeric value of a digit character. -/
def digVal (c : Char) : Nat := c.toNat - 48

/-- Fuelled most-significant-first decimal rendering of a natural number. -/
def natCharsAux : Nat → Nat → Str
  | 0, _ => []
  | fuel + 1, n => if n < 10 then [digitChr n] else natCharsAux fuel (n / 10) ++ [digitChr (n % 10)]

/-- Decimal rendering of a natural number, as produced by `toString` in JS. -/
def natChars (n : Nat) : Str := natCharsAux (n + 1) n

/-- Reads a digit string most-significant-first. -/
def readDigits (l : Str) : Nat := l.foldl (fun a c => a * 10 + digVal c) 0

/-- Whitespace characters skipped by `parseInt`. -/
def isSpaceCh (c : Char) : Bool := c = ' ' || c = '\t' || c = '\n' || c = '\r'

/-- Longest digit prefix read as a number; `none` models a `NaN` result. -/
def readNatPrefix (l : Str) : Option Nat :=
  let ds := l.takeWhile isDigitCh
  if ds.isEmpty then none else some (readDigits ds)

/-- Model of JS `parseInt(s, 10)`: skip whitespace, optional sign, then the
longest digit prefix; `none` models the `NaN` result. -/
def jsParseInt (s : Str) : Option Int :=
  match s.dropWhile isSpaceCh with
  | [] => none
  | c :: rest =>
    if c = '-' then (readNatPrefix rest).map (fun n => -(n : Int))
    else if c = '+' then (readNatPrefix rest).map (fun n => (n : Int))
    else (readNatPrefix (c :: rest)).map (fun n => (n : Int))

theorem digitChr_isDigit {n : Nat} (h : n < 10) : isDigitCh (digitChr n) = true := by
  interval_cases n <;> decide

theorem digVal_digitChr {n : Nat} (h : n < 10) : digVal (digitChr n) = n := by
  interval_cases n <;> decide

theorem natCharsAux_isDigit (fuel n : Nat) :
    ∀ c ∈ natCharsAux fuel n, isDigitCh c = true := by
  induction fuel generalizing n with
  | zero => simp [natCharsAux]
  | succ fuel ih =>
    intro c hc
    simp only [natCharsAux] at hc
    by_cases h : n < 10
    · simp [h] at hc
      subst hc
      exact digitChr_isDigit h
    · simp [h] at hc
      rcases hc with hc | hc
      · exact ih (n / 10) c hc
      · subst hc
        exact digitChr_isDigit (Nat.mod_lt n (by omega))

theorem natChars_isDigit (n : Nat) : ∀ c ∈ natChars n, isDigitCh c = true :=
  natCharsAux_isDigit (n + 1) n

theorem natCharsAux_ne_nil (fuel n : Nat) (hf : n < fuel) : natCharsAux fuel n ≠ [] := by
  cases fuel with
  | zero => omega
  | succ fuel =>
    simp only [natCharsAux]
    by_cases h : n < 10 <;> simp [h]

theorem natCharsAux_extra (fuel₁ fuel₂ n : Nat) (h₁ : n < fuel₁) (h₂ : n < fuel₂) :
    natCharsAux fuel₁ n = natCharsAux fuel₂ n := by
  induction n using Nat.strongRecOn generalizing fuel₁ fuel₂ with
  | _ n ih =>
    cases fuel₁ with
    | zero => omega
    | succ f₁ =>
      cases fuel₂ with
      | zero => omega
      | succ f₂ =>
        simp only [natCharsAux]
        by_cases h : n < 10
        · simp [h]
        · simp only [h, if_false]
          rw [ih (n / 10) (by omega) f₁ f₂ (by omega) (by omega)]

theorem readDigits_natCharsAux (fuel n : Nat) (hf : n < fuel) (a : Nat) :
    (natCharsAux fuel n).foldl (fun a c => a * 10 + digVal c) a =
      a * 10 ^ (natCharsAux fuel n).length + n := by
  induction n using Nat.strongRecOn generalizing fuel a with
  | _ n ih =>
    cases fuel with
    | zero => omega
    | succ fuel =>
      simp only [natCharsAux]
      by_cases h : n < 10
      · simp [h, List.foldl, digVal_digitChr h]
      · simp only [h, if_false, List.foldl_append, List.foldl, List.length_append,
          List.length_cons, List.length_nil]
        rw [ih (n / 10) (by omega) fuel (by omega) a]
        rw [digVal_digitChr (Nat.mod_lt n (by omega))]
        rw [pow_succ]
        have hm := Nat.div_add_mod n 10
        ring_nf
        omega

theorem readDigits_natChars (n : Nat) : readDigits (natChars n) = n := by
  have h := readDigits_natCharsAux (n + 1) n (by omega) 0
  simpa [readDigits, natChars] using h

/-- Parsing the decimal rendering of a natural number recovers it. -/
theorem jsParseInt_natChars (n : Nat) : jsParseInt (natChars n) = some (n : Int) := by
  have hdig := natChars_isDigit n
  have hne : natChars n ≠ [] := natCharsAux_ne_nil (n + 1) n (by omega)
  have hdrop : (natChars n).dropWhile isSpaceCh = natChars n := by
    cases hc : natChars n with
    | nil => simp
    | cons c cs =>
      have hcd : isDigitCh c = true := by
        apply hdig
        rw [hc]
        exact List.mem_cons_self c cs
      have hcs : isSpaceCh c = false := by
        simp only [isDigitCh, Bool.and_eq_true, decide_eq_true_eq] at hcd
        simp only [isSpaceCh, Bool.or_eq_false_iff, decide_eq_false_iff_not]
        refine ⟨⟨⟨?_, ?_⟩, ?_⟩, ?_⟩ <;> (rintro rfl; simp at hcd)
      simp [List.dropWhile, hcs]
  have htake : (natChars n).takeWhile isDigitCh = natChars n :=
    List.takeWhile_eq_self_iff.mpr hdig
  have hread : readNatPrefix (natChars n) = some n := by
    simp only [readNatPrefix, htake]
    simp only [List.isEmpty_eq_true, hne, if_false]
    rw [readDigits_natChars]
  simp only [jsParseInt, hdrop]
  cases hc : natChars n with
  | nil => exact absurd hc hne
  | cons c cs =>
    have hcd : isDigitCh c = true := by
      apply hdig
      rw [hc]
      exact List.mem_cons_self c cs
    simp only [isDigitCh, Bool.and_eq_true, decide_eq_true_eq] at hcd
    have hcm : ¬ c = '-' := by rintro rfl; simp at hcd
    have hcp : ¬ c = '+' := by rintro rfl; simp at hcd
    simp only [hcm, if_false, hcp]
    rw [← hc, hread]
    rfl

theorem colon_not_digit {c : Char} (h : isDigitCh c = true) : c ≠ ':' := by
  rintro rfl
  simp [isDigitCh] at h

theorem natChars_colonFree (n : Nat) : ':' ∉ natChars n := by
  intro hmem
  exact colon_not_digit (natChars_isDigit n ':' hmem) rfl

/-! ## A colon-free injective codec

Used by the concrete instantiation of the crypto primitives: an escape
encoding whose output never contains a colon, with a computable inverse. -/

/-- Escapes one character so the output never contains a colon. -/
def escCh (c : Char) : Str :=
  if c = ':' then ['!', 'c'] else if c = '!' then ['!', '!'] else [c]

/-- Escapes a string into a colon-free string. -/
def escape : Str → Str
  | [] => []
  | c :: rest => escCh c ++ escape rest

/-- Inverse of `escape`. -/
def unescape : Str → Str
  | [] => []
  | [c] => [c]
  | c :: d :: rest =>
    if c = '!' then (if d = 'c' then ':' else d) :: unescape rest
    else c :: unescape (d :: rest)

theorem escape_eq_nil_iff (s : Str) : escape s = [] ↔ s = [] := by
  cases s with
  | nil => simp [escape]
  | cons c rest =>
    simp only [escape, escCh]
    constructor
    · intro h
      by_cases h1 : c = ':' <;> by_cases h2 : c = '!' <;> simp [h1, h2] at h
    · intro h
      exact absurd h (by simp)

theorem colon_notMem_escape (s : Str) : ':' ∉ escape s := by
  induction s with
  | nil => simp [escape]
  | cons c rest ih =>
    simp only [escape, List.mem_append]
    rintro (h | h)
    · simp only [escCh] at h
      by_cases h1 : c = ':'
      · simp [h1] at h
      · by_cases h2 : c = '!'
        · simp [h1, h2] at h
        · simp [h1, h2] at h
          exact h1 h.symm
    · exact ih h

theorem unescape_escape (s : Str) : unescape (escape s) = s := by
  induction s with
  | nil => rfl
  | cons c rest ih =>
    simp only [escape, escCh]
    by_cases h1 : c = ':'
    · subst h1
      simp only [if_pos rfl, List.cons_append, List.nil_append]
      simp [unescape, ih]
    · by_cases h2 : c = '!'
      · subst h2
        simp only [h1, if_false, if_pos rfl, List.cons_append, List.nil_append]
        simp [unescape, ih]
      · simp only [h1, h2, if_false, List.cons_append, List.nil_append]
        cases he : escape rest with
        | nil =>
          have : rest = [] := (escape_eq_nil_iff rest).mp he
          subst this
          rfl
        | cons e es =>
          rw [he] at ih
          simp [unescape, h2, ih]

/-! ## JSON model

The payloads this client exchanges are JSON objects whose fields carry
primitive values; `makeRequest` also meets non-object JSON bodies. -/

/-- Primitive JSON values. -/
inductive JPrim where
  | jstr (s : Str)
  | jnum (n : Int)
  | jbool (b : Bool)
  | jnull
  deriving DecidableEq

/-- A JSON document: an object with primitive-valued fields, or a bare primitive. -/
inductive Json where
  | jobj (fields : List (Str × JPrim))
  | jprim (p : JPrim)
  deriving DecidableEq

/-- JS truthiness of a primitive value. -/
def jsTruthy : JPrim → Bool
  | .jstr s => !s.isEmpty
  | .jnum n => n != 0
  | .jbool b => b
  | .jnull => false

/-- Property access `j[k]` on a parsed JSON document: `none` when the document
is not an object or lacks the key. -/
def lookupField : Json → Str → Option JPrim
  | .jobj fs, k => fs.lookup k
  | .jprim _, _ => none

/-- The JS object spread `\x7b ...data, k: v \x7d`: an existing key keeps its
position with the new value, a new key is appended. -/
def setField (fs : List (Str × JPrim)) (k : Str) (v : JPrim) : List (Str × JPrim) :=
  if fs.any (fun kv => kv.1 = k) then fs.map (fun kv => if kv.1 = k then (k, v) else kv)
  else fs ++ [(k, v)]

/-! ## The crypto primitives used by the client

`ECCClient` calls into Node `crypto` for ECDH, SHA-256, HMAC-SHA256,
AES-256-GCM and base64 transcoding, and into `JSON` for serialization.
These live outside the repository; the client relies only on the contracts
recorded here as fields of the structure. -/

/-- The external primitives of Node `crypto` and `JSON`, with the contracts
the client's code relies on. -/
structure CryptoModel where
  /-- Public key (hex encoded) derived from a private key on the curve. -/
  ecdhPub : Str → Str
  /-- ECDH `computeSecret`: own private key and peer public key to shared secret. -/
  ecdhSecret : Str → Str → Str
  /-- SHA-256 digest as a raw byte buffer. -/
  sha256 : Str → Str
  /-- SHA-256 digest rendered in hex. -/
  sha256hex : Str → Str
  /-- HMAC-SHA256 of data under a key, rendered in base64. -/
  hmacSha256 : Str → Str → Str
  /-- AES-256-GCM encryption: key, iv, plaintext to ciphertext and auth tag. -/
  aesGcmEnc : Str → Str → Str → Str × Str
  /-- AES-256-GCM decryption: key, iv, ciphertext, tag; `none` models the
  `decipher.final()` throw on authentication failure. -/
  aesGcmDec : Str → Str → Str → Str → Option Str
  /-- base64 encoding. -/
  b64 : Str → Str
  /-- base64 decoding (total: arbitrary transport strings are accepted). -/
  unb64 : Str → Str
  /-- `JSON.stringify` on the documents of this model. -/
  jsonStringify : Json → Str
  /-- `JSON.parse`; `none` models the parse throw. -/
  jsonParse : Str → Option Json
  unb64_b64 : ∀ s, unb64 (b64 s) = s
  aes_dec_enc : ∀ k iv pt, aesGcmDec k iv (aesGcmEnc k iv pt).1 (aesGcmEnc k iv pt).2 = some pt
  ecdh_comm : ∀ a b, ecdhSecret a (ecdhPub b) = ecdhSecret b (ecdhPub a)
  parse_stringify : ∀ j, jsonParse (jsonStringify j) = some j
  b64_colonFree : ∀ s, ':' ∉ b64 s
  hex_colonFree : ∀ s, ':' ∉ sha256hex s
  pub_colonFree : ∀ s, ':' ∉ ecdhPub s
  mac_colonFree : ∀ k d, ':' ∉ hmacSha256 k d

/-! ## The ECC client -/

/-- The mutable fields of an `ECCClient` instance. -/
structure ECCClient where
  privateKey : Str
  publicKey : Str
  serverPublicKey : Option Str
  deriving DecidableEq

/-- `hasServerPublicKey`: true iff a server key is cached. -/
def hasServerPublicKey (st : ECCClient) : Bool := st.serverPublicKey.isSome

/-- The errors the client throws, one constructor per `throw new Error` site. -/
inductive ECCError where
  | missingPeerKey
  | malformed (partsCount : Nat)
  | expired
  | invalidHmac
  | gcmAuthFailure
  | httpError (status : Nat) (body : Str)
  | missingServerKey
  | invalidJsonBody
  | noServerKey
  deriving DecidableEq

/-- The message string of each thrown error, as written in the source. -/
def errMessage : ECCError → Str
  | .missingPeerKey => "server public key not provided".toList
  | .malformed n => "invalid format: ".toList ++ natChars n ++ " parts".toList
  | .expired => "data expired".toList
  | .invalidHmac => "invalid hmac".toList
  | .gcmAuthFailure => "unable to authenticate data".toList
  | .httpError status body => "error ".toList ++ natChars status ++ ": ".toList ++ body
  | .missingServerKey => "response missing public key".toList
  | .invalidJsonBody => "invalid json body".toList
  | .noServerKey => "could not obtain server public key".toList

/-- The crypto operations performed during a call, for ordering claims. -/
inductive CryptoOp where
  | ecdhKeyGen
  | ecdhCompute
  | hashDigest
  | randomIV
  | aesEncrypt
  | hmacSign
  | aesDecrypt
  deriving DecidableEq

/-- A decrypted payload: parsed JSON, or the raw text fallback. -/
inductive Decrypted where
  | asJson (j : Json)
  | asText (s : Str)
  deriving DecidableEq

/-- The domain-separation suffix appended to the digest to form the MAC key. -/
def hmacTag : Str := "HMAC_KEY".toList

/-- The key under which the long-term public key is merged into the payload. -/
def clientPublicKeyField : Str := "clientPublicKey".toList

/-- Outcome of `encrypt`: thrown error or envelope, the crypto operations
performed, and the instance state after the call. -/
structure EncryptResult where
  result : Except ECCError Str
  trace : List CryptoOp
  state : ECCClient

/-- Outcome of `decrypt`: thrown error or plaintext, the crypto operations
performed, and the instance state after the call. -/
structure DecryptResult where
  result : Except ECCError Decrypted
  trace : List CryptoOp
  state : ECCClient

/-- `ECCClient.encrypt(data, serverPublicKey)`.  The fresh ephemeral private
key, the random iv and the current Unix time are explicit inputs standing for
the generator and clock reads the method performs. -/
def encrypt (cm : CryptoModel) (st : ECCClient) (ephPriv iv : Str) (now : Nat)
    (data : List (Str × JPrim)) (serverPublicKey : Str) : EncryptResult :=
  if serverPublicKey.isEmpty then
    ⟨.error .missingPeerKey, [], st⟩
  else
    let ephemeralPublicKey := cm.ecdhPub ephPriv
    let sharedSecret := cm.ecdhSecret ephPriv serverPublicKey
    let derivedKey := cm.sha256 sharedSecret
    let aesKey := derivedKey.take 32
    let hmacKey := derivedKey ++ hmacTag
    let dataWithPublicKey := setField data clientPublicKeyField (.jstr st.publicKey)
    let jsonData := cm.jsonStringify (.jobj dataWithPublicKey)
    let enc := cm.aesGcmEnc aesKey iv jsonData
    let clientIdHash := (cm.sha256hex st.publicKey).take 8
    let timestamp := natChars now
    let dataToAuthenticate :=
      clientIdHash ++ (':' :: (ephemeralPublicKey ++ (':' :: (cm.b64 iv ++
        (':' :: (cm.b64 enc.1 ++ (':' :: (cm.b64 enc.2 ++ (':' :: timestamp)))))))))
    let mac := cm.hmacSha256 hmacKey dataToAuthenticate
    ⟨.ok (cm.b64 (dataToAuthenticate ++ (':' :: mac))),
      [.ecdhKeyGen, .ecdhCompute, .hashDigest, .randomIV, .aesEncrypt, .hashDigest, .hmacSign],
      st⟩

/-- Model of the JS comparison `currentTime - timestamp > 300`: comparisons
against the `NaN` produced by an unparseable timestamp are false. -/
def expiryExceeded (now : Nat) (ts : Option Int) : Bool :=
  match ts with
  | none => false
  | some t => decide ((now : Int) - t > 300)

/-- `ECCClient.decrypt(encryptedBundle)`.  The current Unix time is an
explicit input standing for the clock read. -/
def decrypt (cm : CryptoModel) (st : ECCClient) (now : Nat) (encryptedBundle : Str) :
    DecryptResult :=
  match (cm.unb64 encryptedBundle).splitOn ':' with
  | [clientId, ephemeralPublicKey, ivB64, ctB64, tagB64, tsField, receivedHmac] =>
    let iv := cm.unb64 ivB64
    let encryptedData := cm.unb64 ctB64
    let authTag := cm.unb64 tagB64
    let timestamp := jsParseInt tsField
    if expiryExceeded now timestamp then ⟨.error .expired, [], st⟩
    else
      let sharedSecret := cm.ecdhSecret st.privateKey ephemeralPublicKey
      let derivedKey := cm.sha256 sharedSecret
      let aesKey := derivedKey.take 32
      let hmacKey := derivedKey ++ hmacTag
      let dataToAuthenticate :=
        clientId ++ (':' :: (ephemeralPublicKey ++ (':' :: (ivB64 ++
          (':' :: (ctB64 ++ (':' :: (tagB64 ++ (':' :: tsField)))))))))
      let expectedHmac := cm.hmacSha256 hmacKey dataToAuthenticate
      if expectedHmac ≠ receivedHmac then
        ⟨.error .invalidHmac, [.ecdhCompute, .hashDigest, .hmacSign], st⟩
      else
        match cm.aesGcmDec aesKey iv encryptedData authTag with
        | none =>
          ⟨.error .gcmAuthFailure, [.ecdhCompute, .hashDigest, .hmacSign, .aesDecrypt], st⟩
        | some decrypted =>
          match cm.jsonParse decrypted with
          | some j =>
            ⟨.ok (.asJson j), [.ecdhCompute, .hashDigest, .hmacSign, .aesDecrypt], st⟩
          | none =>
            ⟨.ok (.asText decrypted), [.ecdhCompute, .hashDigest, .hmacSign, .aesDecrypt], st⟩
  | parts => ⟨.error (.malformed parts.length), [], st⟩

/-! ## Key exchange and request orchestration

The network is modelled by passing in the `fetch` responses the server
returns; the request the client sends is exposed as a value. -/

/-- What `fetch` resolved to: the `ok` flag, the status, and the body text. -/
structure FetchResponse where
  ok : Bool
  status : Nat
  body : Str
  deriving DecidableEq

/-- An outgoing HTTP request as the client assembles it. -/
structure HttpRequest where
  method : Str
  url : Str
  body : Str
  deriving DecidableEq

/-- The handshake request `getServerPublicKey` issues: a POST of the client
public key to the fixed key endpoint under the base url. -/
def keyExchangeRequest (cm : CryptoModel) (st : ECCClient) (baseUrl : Str) : HttpRequest :=
  ⟨"POST".toList,
    baseUrl ++ "/api/v4/keys/public".toList,
    cm.jsonStringify (.jobj [(clientPublicKeyField, .jstr st.publicKey)])⟩

/-- `ECCClient.getServerPublicKey`, applied to the response of the handshake
call: checks the status, parses the body, extracts `serverPublicKey`, caches
it on the instance and returns it. -/
def getServerPublicKey (cm : CryptoModel) (st : ECCClient) (resp : FetchResponse) :
    Except ECCError (Str × ECCClient) :=
  if resp.ok = false then .error (.httpError resp.status resp.body)
  else
    match cm.jsonParse resp.body with
    | none => .error .invalidJsonBody
    | some j =>
      match lookupField j "serverPublicKey".toList with
      | some (.jstr k) =>
        if k.isEmpty then .error .missingServerKey
        else .ok (k, { st with serverPublicKey := some k })
      | _ => .error .missingServerKey

/-- The result object `makeRequest` resolves with. -/
structure RequestResponse where
  status : Nat
  duration : Int
  responseData : Option Decrypted
  responseText : Option Str
  filePath : Option Str
  deriving DecidableEq

/-- The response-processing tail of `ECCClient.makeRequest` (after the main
`fetch` resolved): status check, JSON parse of the body, `ENC` detection and
decryption, with the `catch` returning the raw text. -/
def processResponse (cm : CryptoModel) (st : ECCClient) (now : Nat) (duration : Int)
    (resp : FetchResponse) : Except ECCError (RequestResponse × ECCClient) :=
  if resp.ok = false then .error (.httpError resp.status resp.body)
  else
    match cm.jsonParse resp.body with
    | some responseData =>
      match lookupField responseData "ENC".toList with
      | some encVal =>
        if jsTruthy encVal then
          match encVal with
          | .jstr s =>
            match (decrypt cm st now s).result with
            | .ok d => .ok (⟨resp.status, duration, some d, none, none⟩, st)
            | .error _ => .ok (⟨resp.status, duration, none, some resp.body, none⟩, st)
          | _ => .ok (⟨resp.status, duration, none, some resp.body, none⟩, st)
        else .ok (⟨resp.status, duration, some (.asJson responseData), none, none⟩, st)
      | none => .ok (⟨resp.status, duration, some (.asJson responseData), none, none⟩, st)
    | none => .ok (⟨resp.status, duration, none, some resp.body, none⟩, st)

/-- `ECCClient.makeRequest(endpoint, data)`: handshake when no key is cached,
encryption of the outbound payload, then processing of the main response.
`keyResp` and `mainResp` are what the two `fetch` calls resolved to; the
randomness and clock reads are explicit inputs as in `encrypt`. -/
def makeRequest (cm : CryptoModel) (st : ECCClient) (ephPriv iv : Str) (now : Nat)
    (duration : Int) (data : List (Str × JPrim)) (keyResp mainResp : FetchResponse) :
    Except ECCError (RequestResponse × ECCClient) :=
  match st.serverPublicKey with
  | none =>
    match getServerPublicKey cm st keyResp with
    | .error e => .error e
    | .ok (_, st1) =>
      match st1.serverPublicKey with
      | none => .error .noServerKey
      | some spk =>
        match (encrypt cm st1 ephPriv iv now data spk).result with
        | .error e => .error e
        | .ok _ => processResponse cm st1 now duration mainResp
  | some spk =>
    match (encrypt cm st ephPriv iv now data spk).result with
    | .error e => .error e
    | .ok _ => processResponse cm st now duration mainResp

/-! ## Splitting colon-joined buffers -/

theorem splitOn_colonFree (xs : Str) (h : ':' ∉ xs) : xs.splitOn ':' = [xs] := by
  simp only [List.splitOn]
  refine List.splitOnP_eq_single _ _ (fun x hx => ?_)
  simp only [beq_iff_eq]
  rintro rfl
  exact h hx

theorem splitOn_append_colon (xs as : Str) (h : ':' ∉ xs) :
    (xs ++ ':' :: as).splitOn ':' = xs :: as.splitOn ':' := by
  simp only [List.splitOn]
  refine List.splitOnP_first _ _ (fun x hx => ?_) ':' (by simp) as
  simp only [beq_iff_eq]
  rintro rfl
  exact h hx

/-! ## A concrete instantiation of the primitives

Executable stand-ins satisfying every contract in `CryptoModel`; used to
evaluate the theorems on explicit inputs. -/

/-- Sum of the character codes of a string. -/
def charSum (s : Str) : Nat := (s.map Char.toNat).sum

/-- Concrete public key: a tagged escape of the private key. -/
def toyPub (priv : Str) : Str := 'P' :: escape priv

/-- Recovers the private key a `toyPub` output encodes. -/
def toyUnwrapPub : Str → Str
  | 'P' :: rest => unescape rest
  | pub => pub

/-- Concrete ECDH shared secret; symmetric in the two private keys. -/
def toySecret (priv pub : Str) : Str :=
  'S' :: natChars (charSum priv + charSum (toyUnwrapPub pub))

/-- Concrete raw digest. -/
def toySha (s : Str) : Str := 'H' :: escape s

/-- Concrete hex digest: tagged escape, colon-free. -/
def toyShaHex (s : Str) : Str := 'h' :: escape s

/-- Concrete HMAC: tagged escape of key and data, colon-free. -/
def toyHmac (key data : Str) : Str := 'M' :: escape (key ++ '|' :: data)

/-- Concrete base64 encoding: tagged escape, colon-free. -/
def toyB64 (s : Str) : Str := 'B' :: escape s

/-- Concrete base64 decoding; total on arbitrary strings. -/
def toyUnb64 : Str → Str
  | 'B' :: rest => unescape rest
  | s => s

/-- Concrete AES-GCM encryption: the ciphertext carries key, iv and plaintext,
the tag commits to key and iv. -/
def toyAesEnc (key iv pt : Str) : Str × Str :=
  ('C' :: escape (key ++ '|' :: iv ++ '|' :: pt), 'G' :: escape (key ++ '|' :: iv))

/-- Concrete AES-GCM decryption: checks the key/iv prefix and the tag. -/
def toyAesDec (key iv ct tag : Str) : Option Str :=
  match ct with
  | 'C' :: rest =>
    let m := unescape rest
    let pre := key ++ '|' :: iv ++ ['|']
    if m.take pre.length = pre ∧ tag = 'G' :: escape (key ++ '|' :: iv) then
      some (m.drop pre.length)
    else none
  | _ => none

theorem toySecret_comm (a b : Str) : toySecret a (toyPub b) = toySecret b (toyPub a) := by
  simp [toySecret, toyPub, toyUnwrapPub, unescape_escape, Nat.add_comm]

theorem toyUnb64_toyB64 (s : Str) : toyUnb64 (toyB64 s) = s := by
  simp [toyB64, toyUnb64, unescape_escape]

theorem toyAesDec_toyAesEnc (k iv pt : Str) :
    toyAesDec k iv (toyAesEnc k iv pt).1 (toyAesEnc k iv pt).2 = some pt := by
  have hsplit : k ++ '|' :: iv ++ '|' :: pt = (k ++ '|' :: iv ++ ['|']) ++ pt := by
    simp [List.append_assoc]
  simp only [toyAesEnc, toyAesDec, unescape_escape, hsplit]
  rw [List.take_left, List.drop_left]
  simp

/-! ## A concrete JSON codec for the instantiation -/

/-- Encodes a primitive value injectively. -/
def encPrim : JPrim → Str
  | .jstr s => 's' :: s
  | .jnum n => if n < 0 then '-' :: List.replicate n.natAbs '1' else '+' :: List.replicate n.natAbs '1'
  | .jbool true => ['t']
  | .jbool false => ['f']
  | .jnull => ['z']

/-- Decodes what `encPrim` produces. -/
def decPrim : Str → Option JPrim
  | [] => none
  | c :: rest =>
    if c = 's' then some (.jstr rest)
    else if c = '-' then
      (if rest.all (fun d => d = '1') then some (.jnum (-(rest.length : Int))) else none)
    else if c = '+' then
      (if rest.all (fun d => d = '1') then some (.jnum (rest.length : Int)) else none)
    else if c = 't' then (if rest = [] then some (.jbool true) else none)
    else if c = 'f' then (if rest = [] then some (.jbool false) else none)
    else if c = 'z' then (if rest = [] then some .jnull else none)
    else none

theorem decPrim_encPrim (p : JPrim) : decPrim (encPrim p) = some p := by
  cases p with
  | jstr s => simp [encPrim, decPrim]
  | jnum n =>
    have hall : ∀ m : Nat, (List.replicate m '1').all (fun d => d = '1') = true := by
      intro m
      rw [List.all_eq_true]
      intro d hd
      simpa using List.eq_of_mem_replicate hd
    by_cases h : n < 0
    · simp only [encPrim, if_pos h, decPrim]
      simp [hall]
      rw [abs_of_neg h]
      ring
    · simp only [encPrim, if_neg h, decPrim]
      simp [hall]
      exact le_of_not_lt h
  | jbool b => cases b <;> simp [encPrim, decPrim]
  | jnull => simp [encPrim, decPrim]

/-- Encodes one object field as a colon-free string. -/
def encField (kv : Str × JPrim) : Str :=
  escape (escape kv.1 ++ ':' :: escape (encPrim kv.2))

/-- Decodes what `encField` produces. -/
def decField (f : Str) : Option (Str × JPrim) :=
  match (unescape f).splitOn ':' with
  | [ek, ev] => (decPrim (unescape ev)).map (fun p => (unescape ek, p))
  | _ => none

theorem decField_encField (kv : Str × JPrim) : decField (encField kv) = some kv := by
  simp only [decField, encField, unescape_escape]
  rw [splitOn_append_colon _ _ (colon_notMem_escape kv.1),
    splitOn_colonFree _ (colon_notMem_escape (encPrim kv.2))]
  simp [unescape_escape, decPrim_encPrim]

/-- Decodes a list of encoded fields, failing if any field fails. -/
def decFields : List Str → Option (List (Str × JPrim))
  | [] => some []
  | f :: rest =>
    match decField f, decFields rest with
    | some kv, some kvs => some (kv :: kvs)
    | _, _ => none

theorem decFields_map_encField (fs : List (Str × JPrim)) :
    decFields (fs.map encField) = some fs := by
  induction fs with
  | nil => rfl
  | cons kv rest ih => simp [decFields, decField_encField, ih]

/-- Joins encoded fields with colons. -/
def joinFields : List Str → Str
  | [] => []
  | [f] => f
  | f :: rest => f ++ ':' :: joinFields rest

/-- Encodes a JSON document injectively. -/
def encJson : Json → Str
  | .jobj fields => 'O' :: joinFields (fields.map encField)
  | .jprim p => 'Q' :: encPrim p

/-- Decodes what `encJson` produces. -/
def decJson : Str → Option Json
  | [] => none
  | c :: rest =>
    if c = 'O' then
      if rest = [] then some (.jobj [])
      else (decFields (rest.splitOn ':')).map .jobj
    else if c = 'Q' then (decPrim rest).map .jprim
    else none

theorem encField_ne_nil (kv : Str × JPrim) : encField kv ≠ [] := by
  simp only [encField]
  rw [Ne, escape_eq_nil_iff]
  simp

theorem splitOn_joinFields (fs : List Str) (hne : ∀ f ∈ fs, f ≠ [])
    (hcf : ∀ f ∈ fs, ':' ∉ f) (h0 : fs ≠ []) :
    (joinFields fs).splitOn ':' = fs := by
  induction fs with
  | nil => exact absurd rfl h0
  | cons f rest ih =>
    cases rest with
    | nil =>
      simp only [joinFields]
      exact splitOn_colonFree f (hcf f (by simp))
    | cons g more =>
      simp only [joinFields]
      rw [splitOn_append_colon f _ (hcf f (by simp))]
      rw [ih (fun x hx => hne x (by simp [hx])) (fun x hx => hcf x (by simp [hx])) (by simp)]

theorem joinFields_ne_nil (fs : List Str) (hne : ∀ f ∈ fs, f ≠ []) (h0 : fs ≠ []) :
    joinFields fs ≠ [] := by
  cases fs with
  | nil => exact absurd rfl h0
  | cons f rest =>
    cases rest with
    | nil => exact hne f (by simp)
    | cons g more =>
      simp only [joinFields, Ne, List.append_eq_nil]
      rintro ⟨-, h⟩
      exact List.noConfusion h

theorem decJson_encJson (j : Json) : decJson (encJson j) = some j := by
  cases j with
  | jprim p => simp [encJson, decJson, decPrim_encPrim]
  | jobj fields =>
    cases fields with
    | nil => rfl
    | cons kv rest =>
      have hne : ∀ f ∈ ((kv :: rest).map encField), f ≠ [] := by
        intro f hf
        simp only [List.mem_map] at hf
        obtain ⟨x, -, rfl⟩ := hf
        exact encField_ne_nil x
      have hcf : ∀ f ∈ ((kv :: rest).map encField), ':' ∉ f := by
        intro f hf
        simp only [List.mem_map] at hf
        obtain ⟨x, -, rfl⟩ := hf
        exact colon_notMem_escape _
      have hj0 : ((kv :: rest).map encField) ≠ [] := by simp
      have hjoin := joinFields_ne_nil _ hne hj0
      simp only [encJson, decJson, if_pos rfl, hjoin, if_neg hjoin]
      rw [splitOn_joinFields _ hne hcf hj0, decFields_map_encField]
      rfl

/-- The concrete instantiation of the external primitives. -/
def toyCM : CryptoModel where
  ecdhPub := toyPub
  ecdhSecret := toySecret
  sha256 := toySha
  sha256hex := toyShaHex
  hmacSha256 := toyHmac
  aesGcmEnc := toyAesEnc
  aesGcmDec := toyAesDec
  b64 := toyB64
  unb64 := toyUnb64
  jsonStringify := encJson
  jsonParse := decJson
  unb64_b64 := toyUnb64_toyB64
  aes_dec_enc := toyAesDec_toyAesEnc
  ecdh_comm := toySecret_comm
  parse_stringify := decJson_encJson
  b64_colonFree := fun s => by
    simp only [toyB64, List.mem_cons]
    rintro (h | h)
    · exact absurd h (by decide)
    · exact colon_notMem_escape s h
  hex_colonFree := fun s => by
    simp only [toyShaHex, List.mem_cons]
    rintro (h | h)
    · exact absurd h (by decide)
    · exact colon_notMem_escape s h
  pub_colonFree := fun s => by
    simp only [toyPub, List.mem_cons]
    rintro (h | h)
    · exact absurd h (by decide)
    · exact colon_notMem_escape s h
  mac_colonFree := fun k d => by
    simp only [toyHmac, List.mem_cons]
    rintro (h | h)
    · exact absurd h (by decide)
    · exact colon_notMem_escape _ h

instance {ε α : Type} [DecidableEq ε] [DecidableEq α] : DecidableEq (Except ε α) := fun x y =>
  match x, y with
  | .ok a, .ok b =>
    if h : a = b then .isTrue (by rw [h]) else .isFalse (fun hc => h (Except.ok.inj hc))
  | .error a, .error b =>
    if h : a = b then .isTrue (by rw [h]) else .isFalse (fun hc => h (Except.error.inj hc))
  | .ok _, .error _ => .isFalse (fun hc => Except.noConfusion hc)
  | .error _, .ok _ => .isFalse (fun hc => Except.noConfusion hc)

/-! ## Claims -/

/-- C6: for every payload, `encrypt(payload, "")` fails with the missing peer
key error (message "server public key not provided") before any cryptographic
operation: the trace is empty and the state untouched. -/
theorem encrypt_empty_peer_key (cm : CryptoModel) (st : ECCClient) (ephPriv iv : Str)
    (now : Nat) (data : List (Str × JPrim)) :
    encrypt cm st ephPriv iv now data [] = ⟨.error .missingPeerKey, [], st⟩ := rfl

/-- C9: `encrypt` and `decrypt` leave the instance state (privateKey,
publicKey, serverPublicKey) unchanged on every path, success or failure; the
ephemeral pair lives only in the call. -/
theorem encrypt_decrypt_state_frame (cm : CryptoModel) (st : ECCClient) (ephPriv iv : Str)
    (now : Nat) (data : List (Str × JPrim)) (spk : Str) (nowD : Nat) (bundle : Str) :
    (encrypt cm st ephPriv iv now data spk).state = st ∧
      (decrypt cm st nowD bundle).state = st := by
  constructor
  · unfold encrypt
    split <;> rfl
  · unfold decrypt
    split
    · dsimp only
      split
      · rfl
      · split
        · rfl
        · split <;> (try split) <;> rfl
    · rfl

/-- C5: an envelope whose base64 decoding splits on colons into any number of
fields other than 7 fails with the malformed-envelope error reporting the
actual field count, with no cryptographic operation performed; the error
message renders that count. -/
theorem decrypt_malformed_field_count (cm : CryptoModel) (st : ECCClient) (now : Nat)
    (bundle : Str) (hk : ((cm.unb64 bundle).splitOn ':').length ≠ 7) :
    (decrypt cm st now bundle).result =
        .error (.malformed ((cm.unb64 bundle).splitOn ':').length)
      ∧ (decrypt cm st now bundle).trace = []
      ∧ errMessage (.malformed ((cm.unb64 bundle).splitOn ':').length) =
          "invalid format: ".toList ++ natChars ((cm.unb64 bundle).splitOn ':').length
            ++ " parts".toList := by
  refine ⟨?_, ?_, rfl⟩ <;>
  · unfold decrypt
    rcases hL : (cm.unb64 bundle).splitOn ':' with
      - | ⟨a0, - | ⟨a1, - | ⟨a2, - | ⟨a3, - | ⟨a4, - | ⟨a5, - | ⟨a6, - | ⟨a7, rest⟩⟩⟩⟩⟩⟩⟩⟩ <;>
      simp_all

/-- C3: a well-formed 7-field envelope with a numeric timestamp fails with the
expiry error exactly when `now - timestamp > 300`: 301 seconds old is
rejected, 300 seconds old passes the check, and a future timestamp (negative
difference) passes with no separate rejection. -/
theorem decrypt_expiry_window (cm : CryptoModel) (st : ECCClient) (now : Nat) (bundle : Str)
    (f0 f1 f2 f3 f4 f5 f6 : Str) (ts : Int)
    (hsplit : (cm.unb64 bundle).splitOn ':' = [f0, f1, f2, f3, f4, f5, f6])
    (hts : jsParseInt f5 = some ts) :
    ((decrypt cm st now bundle).result = .error .expired ↔ (now : Int) - ts > 300) := by
  unfold decrypt
  rw [hsplit]
  dsimp only
  rw [hts]
  simp only [expiryExceeded]
  by_cases h : (now : Int) - ts > 300
  · rw [if_pos (by simpa using h)]
    simp [h]
  · rw [if_neg (by simpa using h)]
    constructor
    · intro hres
      exfalso
      revert hres
      split
      · simp
      · split
        · simp
        · split <;> simp
    · intro hc
      exact absurd hc h

/-- C4: on a 7-field, non-expired envelope whose recomputed HMAC (under the
MAC key derived from the local private key and the envelope's ephemeral
public key, over the first six fields as transmitted) differs from the
transmitted mac, decrypt fails with the authentication error ("invalid hmac")
and AES-GCM decryption is never performed. -/
theorem decrypt_authenticate_then_decrypt (cm : CryptoModel) (st : ECCClient) (now : Nat)
    (bundle : Str) (f0 f1 f2 f3 f4 f5 f6 : Str)
    (hsplit : (cm.unb64 bundle).splitOn ':' = [f0, f1, f2, f3, f4, f5, f6])
    (hfresh : expiryExceeded now (jsParseInt f5) = false)
    (hmismatch : cm.hmacSha256 (cm.sha256 (cm.ecdhSecret st.privateKey f1) ++ hmacTag)
      (f0 ++ (':' :: (f1 ++ (':' :: (f2 ++ (':' :: (f3 ++ (':' :: (f4 ++ (':' :: f5))))))))))
      ≠ f6) :
    (decrypt cm st now bundle).result = .error .invalidHmac
      ∧ CryptoOp.aesDecrypt ∉ (decrypt cm st now bundle).trace
      ∧ errMessage .invalidHmac = "invalid hmac".toList := by
  unfold decrypt
  rw [hsplit]
  dsimp only
  rw [hfresh]
  simp only [Bool.false_eq_true, if_false]
  rw [if_pos hmismatch]
  exact ⟨rfl, by simp, rfl⟩

/-- C10: on a 7-field envelope whose timestamp field is not parseable, the
parsed timestamp is NaN, the expiry comparison is false, and decrypt proceeds
past the expiry check to key derivation and HMAC verification instead of
raising the expiry error. -/
theorem decrypt_nan_timestamp_not_expired (cm : CryptoModel) (st : ECCClient) (now : Nat)
    (bundle : Str) (f0 f1 f2 f3 f4 f5 f6 : Str)
    (hsplit : (cm.unb64 bundle).splitOn ':' = [f0, f1, f2, f3, f4, f5, f6])
    (hts : jsParseInt f5 = none) :
    (decrypt cm st now bundle).result ≠ .error .expired
      ∧ CryptoOp.hmacSign ∈ (decrypt cm st now bundle).trace := by
  unfold decrypt
  rw [hsplit]
  dsimp only
  rw [hts]
  simp only [expiryExceeded, Bool.false_eq_true, if_false]
  constructor
  · split
    · simp
    · split
      · simp
      · split <;> simp
  · split
    · simp
    · split
      · simp
      · split <;> simp

/-- Behaviour of `decrypt` once the envelope splits into exactly 7 fields. -/
theorem decrypt_seven_fields (cm : CryptoModel) (st : ECCClient) (now : Nat) (bundle : Str)
    (f0 f1 f2 f3 f4 f5 f6 : Str)
    (hsplit : (cm.unb64 bundle).splitOn ':' = [f0, f1, f2, f3, f4, f5, f6]) :
    decrypt cm st now bundle =
      if expiryExceeded now (jsParseInt f5) = true then ⟨.error .expired, [], st⟩
      else if cm.hmacSha256 (cm.sha256 (cm.ecdhSecret st.privateKey f1) ++ hmacTag)
          (f0 ++ (':' :: (f1 ++ (':' :: (f2 ++ (':' :: (f3 ++ (':' :: (f4 ++ (':' :: f5))))))))))
          ≠ f6 then
        ⟨.error .invalidHmac, [.ecdhCompute, .hashDigest, .hmacSign], st⟩
      else
        match cm.aesGcmDec (List.take 32 (cm.sha256 (cm.ecdhSecret st.privateKey f1)))
            (cm.unb64 f2) (cm.unb64 f3) (cm.unb64 f4) with
        | none =>
          ⟨.error .gcmAuthFailure, [.ecdhCompute, .hashDigest, .hmacSign, .aesDecrypt], st⟩
        | some decrypted =>
          match cm.jsonParse decrypted with
          | some j =>
            ⟨.ok (.asJson j), [.ecdhCompute, .hashDigest, .hmacSign, .aesDecrypt], st⟩
          | none =>
            ⟨.ok (.asText decrypted), [.ecdhCompute, .hashDigest, .hmacSign, .aesDecrypt], st⟩
      := by
  unfold decrypt
  rw [hsplit]

/-- C1 (amended): decrypting, under the peer private key, the envelope that
`encrypt` produced for the matching peer public key within the replay window
recovers the payload merged with the sender's long-term public key under
`clientPublicKey` — not the payload alone. -/
theorem encrypt_decrypt_roundtrip_merged (cm : CryptoModel) (A B : ECCClient)
    (ephPriv iv peerPriv : Str) (tEnc tDec : Nat) (data : List (Str × JPrim))
    (hkey : B.privateKey = peerPriv)
    (hpub : cm.ecdhPub peerPriv ≠ [])
    (hfresh : (tDec : Int) - (tEnc : Int) ≤ 300) :
    ((encrypt cm A ephPriv iv tEnc data (cm.ecdhPub peerPriv)).result.map
        (fun env => (decrypt cm B tDec env).result)) =
      .ok (.ok (.asJson (.jobj (setField data clientPublicKeyField (.jstr A.publicKey))))) := by
  subst hkey
  have h0 : ':' ∉ (cm.sha256hex A.publicKey).take 8 :=
    fun h => cm.hex_colonFree A.publicKey (List.take_subset 8 _ h)
  unfold encrypt
  rw [if_neg (by simp [hpub])]
  dsimp only
  simp only [Except.map]
  unfold decrypt
  rw [cm.unb64_b64]
  simp only [List.cons_append, List.append_assoc]
  rw [splitOn_append_colon _ _ h0]
  rw [splitOn_append_colon _ _ (cm.pub_colonFree ephPriv)]
  rw [splitOn_append_colon _ _ (cm.b64_colonFree iv)]
  rw [splitOn_append_colon _ _ (cm.b64_colonFree _)]
  rw [splitOn_append_colon _ _ (cm.b64_colonFree _)]
  rw [splitOn_append_colon _ _ (natChars_colonFree tEnc)]
  rw [splitOn_colonFree _ (cm.mac_colonFree _ _)]
  simp only [jsParseInt_natChars]
  rw [if_neg (by simp only [expiryExceeded, decide_eq_true_eq]; omega)]
  rw [cm.ecdh_comm B.privateKey ephPriv]
  rw [if_neg (fun hc => hc rfl)]
  simp only [cm.unb64_b64]
  rw [cm.aes_dec_enc]
  simp only [cm.parse_stringify]

/-- C2 (amended): on a success response whose body parses as JSON with a
truthy string `ENC` field, `makeRequest` decrypts it and resolves with the
decrypted data; when that decryption throws, the surrounding catch swallows
the error and resolves with the raw body text instead of raising. -/
theorem makeRequest_enc_response (cm : CryptoModel) (st : ECCClient) (ephPriv iv : Str)
    (now : Nat) (duration : Int) (data : List (Str × JPrim)) (keyResp mainResp : FetchResponse)
    (spk : Str) (j : Json) (s : Str) (r : Except ECCError Decrypted)
    (hcache : st.serverPublicKey = some spk)
    (hspk : spk ≠ [])
    (hok : mainResp.ok = true)
    (hparse : cm.jsonParse mainResp.body = some j)
    (henc : lookupField j "ENC".toList = some (.jstr s))
    (hne : s ≠ [])
    (hdec : (decrypt cm st now s).result = r) :
    makeRequest cm st ephPriv iv now duration data keyResp mainResp =
      .ok (match r with
        | .ok d => (⟨mainResp.status, duration, some d, none, none⟩, st)
        | .error _ => (⟨mainResp.status, duration, none, some mainResp.body, none⟩, st)) := by
  have hie : s.isEmpty = false := by
    cases s with
    | nil => exact absurd rfl hne
    | cons a as => rfl
  obtain ⟨env, hencOk⟩ : ∃ env, (encrypt cm st ephPriv iv now data spk).result = .ok env := by
    unfold encrypt
    rw [if_neg (by simp [hspk])]
    exact ⟨_, rfl⟩
  unfold makeRequest processResponse
  simp only [hcache, hencOk, hok, hparse, henc, jsTruthy, hie, hdec]
  cases r <;> rfl

/-- Every success value of the response-processing tail populates exactly one
of responseData and responseText. -/
theorem processResponse_exactly_one (cm : CryptoModel) (st : ECCClient) (now : Nat)
    (duration : Int) (resp : FetchResponse) (rr : RequestResponse) (st1 : ECCClient)
    (h : processResponse cm st now duration resp = .ok (rr, st1)) :
    rr.responseData.isSome = rr.responseText.isNone := by
  unfold processResponse at h
  repeat' split at h
  all_goals first
    | exact Except.noConfusion h
    | (injection h with h2
       injection h2 with h3 h4
       subst h3
       rfl)

/-- C7 (amended): every result `makeRequest` successfully resolves with
populates exactly one of responseData and responseText — never both and never
neither (which of the two is populated is settled by the counterexample:
responseText can carry a body that parses as JSON when its `ENC` field fails
to decrypt). -/
theorem makeRequest_exactly_one (cm : CryptoModel) (st : ECCClient) (ephPriv iv : Str)
    (now : Nat) (duration : Int) (data : List (Str × JPrim)) (keyResp mainResp : FetchResponse)
    (rr : RequestResponse) (st1 : ECCClient)
    (h : makeRequest cm st ephPriv iv now duration data keyResp mainResp = .ok (rr, st1)) :
    rr.responseData.isSome = rr.responseText.isNone := by
  unfold makeRequest at h
  split at h
  · split at h
    · exact absurd h (by simp)
    · split at h
      · exact absurd h (by simp)
      · split at h
        · exact absurd h (by simp)
        · exact processResponse_exactly_one _ _ _ _ _ _ _ h
  · split at h
    · exact absurd h (by simp)
    · exact processResponse_exactly_one _ _ _ _ _ _ _ h

/-- C8: the handshake POSTs the client public key to the fixed key endpoint;
a non-success status fails with the status and body, a success body without a
usable serverPublicKey fails with the missing-key error, and a success body
with one caches it (so hasServerPublicKey flips to true) and returns it. -/
theorem getServerPublicKey_contract (cm : CryptoModel) (st : ECCClient) (baseUrl : Str)
    (rFail rNoKey rOk : FetchResponse) (j jn : Json) (k : Str)
    (hfail : rFail.ok = false)
    (hnkOk : rNoKey.ok = true)
    (hnkParse : cm.jsonParse rNoKey.body = some jn)
    (hnkMissing : lookupField jn "serverPublicKey".toList = none)
    (hOk : rOk.ok = true)
    (hParse : cm.jsonParse rOk.body = some j)
    (hKey : lookupField j "serverPublicKey".toList = some (.jstr k))
    (hne : k ≠ []) :
    keyExchangeRequest cm st baseUrl =
        ⟨"POST".toList, baseUrl ++ "/api/v4/keys/public".toList,
          cm.jsonStringify (.jobj [(clientPublicKeyField, .jstr st.publicKey)])⟩
      ∧ getServerPublicKey cm st rFail = .error (.httpError rFail.status rFail.body)
      ∧ getServerPublicKey cm st rNoKey = .error .missingServerKey
      ∧ getServerPublicKey cm st rOk = .ok (k, { st with serverPublicKey := some k })
      ∧ hasServerPublicKey { st with serverPublicKey := some k } = true := by
  refine ⟨rfl, ?_, ?_, ?_, rfl⟩
  · unfold getServerPublicKey
    simp [hfail]
  · unfold getServerPublicKey
    rw [hnkOk, if_neg (by simp)]
    simp only [hnkParse]
    rw [hnkMissing]
  · unfold getServerPublicKey
    rw [hOk, if_neg (by simp)]
    simp only [hParse, hKey]
    rw [if_neg (by simp [hne])]

/-! ## Counterexamples -/

/-- C1 counterexample: with the concrete primitives, encrypting the empty
payload and decrypting under the matching peer key does not reproduce the
payload exactly — the result carries the extra `clientPublicKey` field the
encryptor merged in. -/
theorem roundtrip_exact_counterexample :
    ((encrypt toyCM ⟨['a'], toyPub ['a'], none⟩ ['e'] ['i'] 0 [] (toyPub ['k'])).result.map
        (fun env => (decrypt toyCM ⟨['k'], toyPub ['k'], none⟩ 0 env).result)) ≠
      .ok (.ok (.asJson (.jobj [])))
    ∧ ((encrypt toyCM ⟨['a'], toyPub ['a'], none⟩ ['e'] ['i'] 0 [] (toyPub ['k'])).result.map
        (fun env => (decrypt toyCM ⟨['k'], toyPub ['k'], none⟩ 0 env).result)) =
      .ok (.ok (.asJson (.jobj [(clientPublicKeyField, .jstr (toyPub ['a']))]))) :=
  ⟨by decide, by decide⟩

/-- C2 counterexample: a success response whose JSON body carries an `ENC`
value that fails to decrypt (here: a malformed two-field envelope) does not
raise the decrypt error — `makeRequest` resolves with the raw body text. -/
theorem makeRequest_decrypt_error_swallowed_cex :
    (decrypt toyCM ⟨['k'], toyPub ['k'], some (toyPub ['s'])⟩ 0 ['x', ':', 'y']).result =
      .error (.malformed 2)
    ∧ makeRequest toyCM ⟨['k'], toyPub ['k'], some (toyPub ['s'])⟩ ['e'] ['i'] 0 0 []
        ⟨true, 200, []⟩ ⟨true, 200, encJson (.jobj [("ENC".toList, .jstr ['x', ':', 'y'])])⟩ =
      .ok (⟨200, 0, none, some (encJson (.jobj [("ENC".toList, .jstr ['x', ':', 'y'])])), none⟩,
        ⟨['k'], toyPub ['k'], some (toyPub ['s'])⟩) :=
  ⟨by decide, by decide⟩

/-- C7 counterexample: a body that parses as JSON can still come back in
responseText rather than responseData — when its truthy `ENC` field fails to
decrypt — refuting the claimed JSON-implies-responseData classification. -/
theorem makeRequest_classification_cex :
    toyCM.jsonParse (encJson (.jobj [("ENC".toList, .jstr ['x', ':', 'y'])])) =
      some (.jobj [("ENC".toList, .jstr ['x', ':', 'y'])])
    ∧ makeRequest toyCM ⟨['k'], toyPub ['k'], some (toyPub ['s'])⟩ ['e'] ['i'] 0 7 []
        ⟨true, 200, []⟩ ⟨true, 201, encJson (.jobj [("ENC".toList, .jstr ['x', ':', 'y'])])⟩ =
      .ok (⟨201, 7, none, some (encJson (.jobj [("ENC".toList, .jstr ['x', ':', 'y'])])), none⟩,
        ⟨['k'], toyPub ['k'], some (toyPub ['s'])⟩) :=
  ⟨by decide, by decide⟩

/-! ## Witnesses -/

/-- Witness for C1 (amended) at concrete keys, payload and times. -/
theorem roundtrip_merged_witness :
    (⟨['k'], toyPub ['k'], none⟩ : ECCClient).privateKey = ['k']
    ∧ toyCM.ecdhPub ['k'] ≠ []
    ∧ ((0 : Int) - (0 : Int) ≤ 300)
    ∧ ((encrypt toyCM ⟨['a'], toyPub ['a'], none⟩ ['e'] ['i'] 0 [(['q'], .jnum 5)]
          (toyCM.ecdhPub ['k'])).result.map
        (fun env => (decrypt toyCM ⟨['k'], toyPub ['k'], none⟩ 0 env).result)) =
      .ok (.ok (.asJson (.jobj
        (setField [(['q'], .jnum 5)] clientPublicKeyField (.jstr (⟨['a'], toyPub ['a'], none⟩ :
          ECCClient).publicKey))))) :=
  ⟨rfl, by decide, by decide,
    encrypt_decrypt_roundtrip_merged toyCM ⟨['a'], toyPub ['a'], none⟩
      ⟨['k'], toyPub ['k'], none⟩ ['e'] ['i'] ['k'] 0 0 [(['q'], .jnum 5)]
      rfl (by decide) (by decide)⟩

/-- Witness for C2 (amended) on a concrete failing envelope. -/
theorem makeRequest_enc_response_witness :
    (decrypt toyCM ⟨['k'], toyPub ['k'], some (toyPub ['s'])⟩ 3 ['x', ':', 'y']).result =
      .error (.malformed 2)
    ∧ toyCM.jsonParse (encJson (.jobj [("ENC".toList, .jstr ['x', ':', 'y'])])) =
      some (.jobj [("ENC".toList, .jstr ['x', ':', 'y'])])
    ∧ makeRequest toyCM ⟨['k'], toyPub ['k'], some (toyPub ['s'])⟩ ['e'] ['i'] 3 0 []
        ⟨true, 200, []⟩ ⟨true, 200, encJson (.jobj [("ENC".toList, .jstr ['x', ':', 'y'])])⟩ =
      .ok (⟨200, 0, none, some (encJson (.jobj [("ENC".toList, .jstr ['x', ':', 'y'])])), none⟩,
        ⟨['k'], toyPub ['k'], some (toyPub ['s'])⟩) :=
  ⟨by decide, by decide,
    makeRequest_enc_response toyCM ⟨['k'], toyPub ['k'], some (toyPub ['s'])⟩ ['e'] ['i'] 3 0 []
      ⟨true, 200, []⟩ ⟨true, 200, encJson (.jobj [("ENC".toList, .jstr ['x', ':', 'y'])])⟩
      (toyPub ['s']) (.jobj [("ENC".toList, .jstr ['x', ':', 'y'])]) ['x', ':', 'y']
      (.error (.malformed 2)) rfl (by decide) rfl (by decide) (by decide) (by decide) (by decide)⟩

/-- Witness for C3 on a concrete envelope 400 seconds in the future of the
decryption clock. -/
theorem decrypt_expiry_window_witness :
    (toyCM.unb64 (toyB64 ['a', ':', 'P', ':', 'B', ':', 'C', ':', 'G', ':', '4', '0', '0', ':',
        'M'])).splitOn ':' =
      [['a'], ['P'], ['B'], ['C'], ['G'], ['4', '0', '0'], ['M']]
    ∧ jsParseInt ['4', '0', '0'] = some 400
    ∧ ((decrypt toyCM ⟨['k'], toyPub ['k'], none⟩ 0
          (toyB64 ['a', ':', 'P', ':', 'B', ':', 'C', ':', 'G', ':', '4', '0', '0', ':',
            'M'])).result =
        .error .expired ↔ (0 : Int) - 400 > 300) :=
  ⟨by decide, by decide,
    decrypt_expiry_window toyCM ⟨['k'], toyPub ['k'], none⟩ 0
      (toyB64 ['a', ':', 'P', ':', 'B', ':', 'C', ':', 'G', ':', '4', '0', '0', ':', 'M'])
      ['a'] ['P'] ['B'] ['C'] ['G'] ['4', '0', '0'] ['M'] 400 (by decide) (by decide)⟩

/-- Witness for C4 on a concrete fresh envelope carrying a wrong mac. -/
theorem decrypt_authenticate_then_decrypt_witness :
    expiryExceeded 0 (jsParseInt ['0']) = false
    ∧ toyCM.hmacSha256 (toyCM.sha256 (toyCM.ecdhSecret
          (⟨['k'], toyPub ['k'], none⟩ : ECCClient).privateKey ['P']) ++ hmacTag)
        (['a'] ++ (':' :: (['P'] ++ (':' :: (['B'] ++ (':' :: (['C'] ++ (':' ::
          (['G'] ++ (':' :: ['0'])))))))))) ≠ ['x']
    ∧ (decrypt toyCM ⟨['k'], toyPub ['k'], none⟩ 0
          (toyB64 ['a', ':', 'P', ':', 'B', ':', 'C', ':', 'G', ':', '0', ':', 'x'])).result =
        .error .invalidHmac
    ∧ CryptoOp.aesDecrypt ∉ (decrypt toyCM ⟨['k'], toyPub ['k'], none⟩ 0
          (toyB64 ['a', ':', 'P', ':', 'B', ':', 'C', ':', 'G', ':', '0', ':', 'x'])).trace
    ∧ errMessage .invalidHmac = "invalid hmac".toList :=
  ⟨by decide, by decide,
    decrypt_authenticate_then_decrypt toyCM ⟨['k'], toyPub ['k'], none⟩ 0
      (toyB64 ['a', ':', 'P', ':', 'B', ':', 'C', ':', 'G', ':', '0', ':', 'x'])
      ['a'] ['P'] ['B'] ['C'] ['G'] ['0'] ['x'] (by decide) (by decide) (by decide)⟩

/-- Witness for C5 on a concrete two-field input. -/
theorem decrypt_malformed_field_count_witness :
    ((toyCM.unb64 ['x', ':', 'y']).splitOn ':').length ≠ 7
    ∧ (decrypt toyCM ⟨['k'], toyPub ['k'], none⟩ 0 ['x', ':', 'y']).result =
        .error (.malformed ((toyCM.unb64 ['x', ':', 'y']).splitOn ':').length)
    ∧ (decrypt toyCM ⟨['k'], toyPub ['k'], none⟩ 0 ['x', ':', 'y']).trace = []
    ∧ errMessage (.malformed ((toyCM.unb64 ['x', ':', 'y']).splitOn ':').length) =
        "invalid format: ".toList ++ natChars ((toyCM.unb64 ['x', ':', 'y']).splitOn ':').length
          ++ " parts".toList :=
  ⟨by decide,
    decrypt_malformed_field_count toyCM ⟨['k'], toyPub ['k'], none⟩ 0 ['x', ':', 'y'] (by decide)⟩

/-- Witness for C7 (amended) on a concrete plain-text response. -/
theorem makeRequest_exactly_one_witness :
    makeRequest toyCM ⟨['k'], toyPub ['k'], some (toyPub ['s'])⟩ ['e'] ['i'] 0 0 []
        ⟨true, 200, []⟩ ⟨true, 200, ['p']⟩ =
      .ok (⟨200, 0, none, some ['p'], none⟩, ⟨['k'], toyPub ['k'], some (toyPub ['s'])⟩)
    ∧ (⟨200, 0, none, some ['p'], none⟩ : RequestResponse).responseData.isSome =
        (⟨200, 0, none, some ['p'], none⟩ : RequestResponse).responseText.isNone :=
  ⟨by decide,
    makeRequest_exactly_one toyCM ⟨['k'], toyPub ['k'], some (toyPub ['s'])⟩ ['e'] ['i'] 0 0 []
      ⟨true, 200, []⟩ ⟨true, 200, ['p']⟩ ⟨200, 0, none, some ['p'], none⟩
      ⟨['k'], toyPub ['k'], some (toyPub ['s'])⟩ (by decide)⟩

/-- Witness for C8 on concrete handshake responses. -/
theorem getServerPublicKey_contract_witness :
    keyExchangeRequest toyCM ⟨['k'], toyPub ['k'], none⟩ ['u'] =
        ⟨"POST".toList, ['u'] ++ "/api/v4/keys/public".toList,
          toyCM.jsonStringify (.jobj [(clientPublicKeyField,
            .jstr (⟨['k'], toyPub ['k'], none⟩ : ECCClient).publicKey)])⟩
    ∧ getServerPublicKey toyCM ⟨['k'], toyPub ['k'], none⟩ ⟨false, 500, ['e']⟩ =
        .error (.httpError 500 ['e'])
    ∧ getServerPublicKey toyCM ⟨['k'], toyPub ['k'], none⟩ ⟨true, 200, encJson (.jobj [])⟩ =
        .error .missingServerKey
    ∧ getServerPublicKey toyCM ⟨['k'], toyPub ['k'], none⟩
        ⟨true, 200, encJson (.jobj [("serverPublicKey".toList, .jstr ['Z'])])⟩ =
        .ok (['Z'], ⟨['k'], toyPub ['k'], some ['Z']⟩)
    ∧ hasServerPublicKey ⟨['k'], toyPub ['k'], some ['Z']⟩ = true :=
  getServerPublicKey_contract toyCM ⟨['k'], toyPub ['k'], none⟩ ['u']
    ⟨false, 500, ['e']⟩ ⟨true, 200, encJson (.jobj [])⟩
    ⟨true, 200, encJson (.jobj [("serverPublicKey".toList, .jstr ['Z'])])⟩
    (.jobj [("serverPublicKey".toList, .jstr ['Z'])]) (.jobj []) ['Z']
    rfl rfl (by decide) (by decide) rfl (by decide) (by decide) (by decide)

/-- Witness for C10 on a concrete envelope with a non-numeric timestamp. -/
theorem decrypt_nan_timestamp_witness :
    jsParseInt ['x'] = none
    ∧ (decrypt toyCM ⟨['k'], toyPub ['k'], none⟩ 1000000
          (toyB64 ['a', ':', 'P', ':', 'B', ':', 'C', ':', 'G', ':', 'x', ':', 'M'])).result ≠
        .error .expired
    ∧ CryptoOp.hmacSign ∈ (decrypt toyCM ⟨['k'], toyPub ['k'], none⟩ 1000000
          (toyB64 ['a', ':', 'P', ':', 'B', ':', 'C', ':', 'G', ':', 'x', ':', 'M'])).trace :=
  ⟨by decide,
    decrypt_nan_timestamp_not_expired toyCM ⟨['k'], toyPub ['k'], none⟩ 1000000
      (toyB64 ['a', ':', 'P', ':', 'B', ':', 'C', ':', 'G', ':', 'x', ':', 'M'])
      ['a'] ['P'] ['B'] ['C'] ['G'] ['x'] ['M'] (by decide) (by decide)⟩

end ECC
